import Mathlib

/-!
Verification development for `scripts/generate-updater-manifests.py`, a
single-pass script that fetches a GitHub release by tag, resolves one updater
asset and one detached signature per platform target, and assembles a Tauri
`latest.json` manifest.

The script is shallowly embedded below.  Network I/O is modelled by oracle
parameters: the release fetch is an `Except String Release` value (the parsed
JSON payload or the HTTP/JSON failure), and the signature download + UTF-8
decode is a function `String → Except String String` from the asset API URL to
the decoded text.  Python regular-expression matching over asset names is
embedded as an executable decomposition search over `List Char` (note `.` in a
pattern does not match a newline, and a `$` anchor also matches just before a
single trailing newline).  `\d` is modelled as an ASCII digit.  stderr output
(the per-target "skipping" lines) is modelled as an accumulated list of log
strings.  Filesystem output is not modelled; the run result is the manifest
value together with the log lines, or the fatal error message.
-/

/-- The newline character, written via its code point. -/
def nlChar : Char := Char.ofNat 10

/-- The ASCII apostrophe, used by Python `repr` on strings. -/
def squote : String := String.singleton (Char.ofNat 39)

/-- True when the list of characters contains no newline (the characters a
Python `.`/`.+`/`.*` may traverse). -/
def noNl (l : List Char) : Bool := !(l.contains nlChar)

/-- Characters stripped by Python `str.strip()` (ASCII whitespace). -/
def isPySpace (c : Char) : Bool :=
  c == ' ' || c == Char.ofNat 9 || c == nlChar || c == Char.ofNat 13 ||
    c == Char.ofNat 11 || c == Char.ofNat 12

/-- Python `str.strip()`: drop leading and trailing whitespace. -/
def pyStrip (s : String) : String :=
  String.mk (((s.data.dropWhile isPySpace).reverse.dropWhile isPySpace).reverse)

/-- Lexicographic (code-point) strict order on character lists, as used by
Python string comparison. -/
def lexLtB : List Char → List Char → Bool
  | [], [] => false
  | [], _ :: _ => true
  | _ :: _, [] => false
  | a :: as, b :: bs => if a < b then true else if b < a then false else lexLtB as bs

/-- Python `a < b` on strings. -/
def strLtB (a b : String) : Bool := lexLtB a.data b.data

/-- Python `sep.join(xs)`. -/
def joinSep (sep : String) : List String → String
  | [] => ""
  | [x] => x
  | x :: y :: xs => x ++ sep ++ joinSep sep (y :: xs)

/-- Python `repr` of a list of simple strings, e.g. `['macos', 'darwin']`. -/
def pyListRepr (xs : List String) : String :=
  "[" ++ joinSep (", ") (xs.map (fun s => squote ++ s ++ squote)) ++ "]"

/-- Membership of a string in a list of strings, as a boolean. -/
def containsStr (l : List String) (s : String) : Bool :=
  l.any (fun x => decide (x = s))

/-- Python `n in h` on character lists (substring test). -/
def isSubstrL (n : List Char) : List Char → Bool
  | [] => n.isEmpty
  | c :: t => n.isPrefixOf (c :: t) || isSubstrL n t

/-- Python `n in h` on strings. -/
def isSubstr (n h : String) : Bool := isSubstrL n.data h.data

/-- Split off the longest prefix of characters satisfying `p` (greedy `\d+`
style matching; the boundary characters of the patterns in the script are
never in the scanned class, so greedy matching needs no backtracking). -/
def spanP (p : Char → Bool) : List Char → List Char × List Char
  | [] => ([], [])
  | c :: r =>
    if p c then
      let s := spanP p r
      (c :: s.1, s.2)
    else ([], c :: r)

/-- Python `s.removeprefix("v")`. -/
def removeprefixV (s : String) : String :=
  match s.data with
  | 'v' :: rest => String.mk rest
  | _ => s

/-- A release asset, as used by the script: `name`, the API `url` used for
authenticated download, and the public `browser_download_url`. -/
structure Asset where
  name : String
  url : String
  browser_download_url : String
  deriving DecidableEq

/-- One platform entry of the output manifest. -/
structure PlatEntry where
  signature : String
  url : String
  deriving DecidableEq

/-- The output manifest (`latest.json`). -/
structure Manifest where
  version : String
  pub_date : String
  platforms : List (String × PlatEntry)
  notes : String
  deriving DecidableEq

/-- A statically configured platform target. -/
structure Target where
  os_target : String
  arch_canonical : String
  platform_aliases : List String
  arch_aliases : List String
  extensions : List String
  deriving DecidableEq

/-- The update channel (the argparse `--channel` choices). -/
inductive Channel
  | stable
  | nightly
  deriving DecidableEq

/-- The command-line arguments that influence the run's outcome.  `--owner`,
`--repo`, `--out-dir` and `--token-env` only feed the network and filesystem
oracles and are omitted; `--format` has a single choice (`combined`). -/
structure Args where
  tag : String
  channel : Channel
  notes : String
  platforms : String
  version : String
  deriving DecidableEq

/-- The JSON value found under the release's `assets` key: either a list of
assets, or some other JSON value of which only the truthiness is relevant
(`release.get("assets") or []` discards falsy values). -/
inductive AssetsField
  | list (items : List Asset)
  | other (truthy : Bool)
  deriving DecidableEq

/-- The parsed release payload.  `none` models a missing key or JSON `null`;
an empty string models any other falsy string value. -/
structure Release where
  published_at : Option String
  created_at : Option String
  html_url : Option String
  assets : Option AssetsField
  deriving DecidableEq

/-- Decidable equality on `Except`, used to evaluate concrete run results. -/
instance [DecidableEq ε] [DecidableEq α] : DecidableEq (Except ε α) := fun x y =>
  match x, y with
  | Except.error a, Except.error b =>
    if h : a = b then isTrue (h ▸ rfl) else isFalse (fun hc => h (Except.error.inj hc))
  | Except.ok a, Except.ok b =>
    if h : a = b then isTrue (h ▸ rfl) else isFalse (fun hc => h (Except.ok.inj hc))
  | Except.error _, Except.ok _ => isFalse (fun hc => Except.noConfusion hc)
  | Except.ok _, Except.error _ => isFalse (fun hc => Except.noConfusion hc)

/-- Generic boolean test for `Except.ok`. -/
def isOkE : Except ε α → Bool
  | Except.ok _ => true
  | Except.error _ => false

/-- Generic boolean test for `Except.error`. -/
def isErrE : Except ε α → Bool
  | Except.ok _ => false
  | Except.error _ => true

/-- The literal middle section `_<version>_<alias>_<arch>` of the updater
asset-name pattern. -/
def sepOf (version al arch : List Char) : List Char :=
  '_' :: (version ++ '_' :: (al ++ '_' :: arch))

/-- Matchability of the pattern tail `.*<ext>$` against the remainder `r`:
`r` is `y ++ ext` (or `y ++ ext ++ "\n"`, since `$` also matches before one
trailing newline) with `y` newline-free. -/
def tailOk (ext r : List Char) : Bool :=
  (ext.isSuffixOf r && noNl (r.take (r.length - ext.length))) ||
  ((ext ++ [nlChar]).isSuffixOf r && noNl (r.take (r.length - (ext.length + 1))))

/-- Matchability of `^.+<sep>.*<ext>$` against a name: scan over the nonempty
newline-free prefix matched by `.+`, then require the literal `sep` and a tail
accepted by `tailOk`. -/
def scanMatch (sep ext : List Char) : List Char → Bool
  | [] => false
  | c :: rest =>
    if c = nlChar then false
    else (sep.isPrefixOf rest && tailOk ext (rest.drop sep.length)) || scanMatch sep ext rest

/-- Matchability of the compiled pattern
`^.+_<version>_(<alias1>|...)_<arch>.*<ext>$` from `_find_updater_asset`
(and, with `ext = ".sig"`, the fallback pattern of `_find_signature_asset`). -/
def updaterMatches (version : String) (aliases : List String) (arch ext : String)
    (name : String) : Bool :=
  aliases.any (fun al => scanMatch (sepOf version.data al.data arch.data) ext.data name.data)

/-- The candidate assets matched by the updater pattern. -/
def updaterCandidates (assets : List Asset) (version : String) (aliases : List String)
    (arch ext : String) : List Asset :=
  assets.filter (fun a => updaterMatches version aliases arch ext a.name)

/-- The f-string description used by `_find_updater_asset` for error
messages. -/
def updaterDesc (version : String) (aliases : List String) (arch ext : String) : String :=
  "version=" ++ version ++ " platform=" ++ pyListRepr aliases ++ " arch=" ++ arch ++
    " ext=" ++ ext

/-- One step of a stable insertion sort with a strict-order comparator: `x` is
inserted after every element strictly below it, so elements comparing equal
keep their original relative order, as Python's stable `sorted` does. -/
def insertByStable (lt : α → α → Bool) (x : α) : List α → List α
  | [] => [x]
  | y :: ys => if lt y x then y :: insertByStable lt x ys else x :: y :: ys

/-- Stable insertion sort with a strict-order comparator (Python `sorted`). -/
def sortByStable (lt : α → α → Bool) : List α → List α
  | [] => []
  | x :: xs => insertByStable lt x (sortByStable lt xs)

/-- The ambiguous-match error text of `_pick_one`: all conflicting names,
sorted, comma-joined. -/
def multipleMsg (desc : String) (items : List Asset) : String :=
  "Multiple release assets matched " ++ desc ++ ": " ++
    joinSep (", ") (sortByStable strLtB (items.map (fun a => a.name)))

/-- `_pick_one`: exactly one candidate is returned; zero is a missing-asset
error; several are an ambiguous-match error naming all candidates. -/
def pick_one (items : List Asset) (desc : String) : Except String Asset :=
  match items with
  | [a] => Except.ok a
  | [] => Except.error ("Missing release asset: " ++ desc)
  | _ :: _ :: _ => Except.error (multipleMsg desc items)

/-- `_find_updater_asset`. -/
def find_updater_asset (assets : List Asset) (version : String) (aliases : List String)
    (arch ext : String) : Except String Asset :=
  pick_one (updaterCandidates assets version aliases arch ext)
    (updaterDesc version aliases arch ext)

/-- The assets whose name is exactly `<updater-asset-name>.sig`. -/
def exactSigMatches (assets : List Asset) (updaterName : String) : List Asset :=
  assets.filter (fun a => decide (a.name = updaterName ++ ".sig"))

/-- The fallback candidates of `_find_signature_asset`: same platform/arch
pattern as the updater search but with a `.sig` extension. -/
def sigCandidates (assets : List Asset) (version : String) (aliases : List String)
    (arch : String) : List Asset :=
  updaterCandidates assets version aliases arch (".sig")

/-- The sort-key flag of the fallback ranking: `0` when the candidate's name
contains the full updater asset name, else `1`. -/
def sigFlag (u : String) (a : Asset) : Nat := if isSubstr u a.name then 0 else 1

/-- Strict comparison of the ranking keys `(flag, name)` used by
`_find_signature_asset`'s `sorted(..., key=...)`. -/
def sigLt (u : String) (a b : Asset) : Bool :=
  if sigFlag u a < sigFlag u b then true
  else if sigFlag u a = sigFlag u b then strLtB a.name b.name
  else false

/-- `_find_signature_asset`: exact `<name>.sig` lookup first; otherwise the
pattern fallback, where with two or more candidates the list is ranked by
`(contains-updater-name?, name)` and `_pick_one` is applied to every candidate
whose contains-status ties with the best-ranked one. -/
def find_signature_asset (assets : List Asset) (version : String) (aliases : List String)
    (arch : String) (updaterName : String) : Except String Asset :=
  if exactSigMatches assets updaterName ≠ [] then
    pick_one (exactSigMatches assets updaterName) ("signature for " ++ updaterName)
  else if (sigCandidates assets version aliases arch).length ≤ 1 then
    pick_one (sigCandidates assets version aliases arch)
      ("signature for version=" ++ version ++ " platform=" ++ pyListRepr aliases ++
        " arch=" ++ arch)
  else
    match sortByStable (sigLt updaterName) (sigCandidates assets version aliases arch) with
    | [] => pick_one [] ("signature for " ++ updaterName)
    | best :: rest =>
      pick_one
        ((best :: rest).filter
          (fun a => isSubstr updaterName a.name == isSubstr updaterName best.name))
        ("signature for " ++ updaterName)

/-- Parse `v\d+\.\d+\.\d+` at the front of a tag; return the unconsumed rest
on success.  The digit runs are maximal, which coincides with the regex since
the characters that may follow each run (`.`, `-`, `+`, end) are not digits. -/
def parseVersionCore (l : List Char) : Option (List Char) :=
  match l with
  | [] => none
  | c0 :: r =>
    if c0 = 'v' then
      match spanP Char.isDigit r with
      | (d1, r1) =>
        if d1 = [] then none
        else
          match r1 with
          | [] => none
          | c1 :: r2 =>
            if c1 = '.' then
              match spanP Char.isDigit r2 with
              | (d2, r3) =>
                if d2 = [] then none
                else
                  match r3 with
                  | [] => none
                  | c2 :: r4 =>
                    if c2 = '.' then
                      match spanP Char.isDigit r4 with
                      | (d3, r5) => if d3 = [] then none else some r5
                    else none
            else none
    else none

/-- `re.fullmatch(r"v\d+\.\d+\.\d+", tag)` as a boolean. -/
def validStableTag (tag : String) : Bool :=
  decide (parseVersionCore tag.data = some [])

/-- A character of the class `[0-9A-Za-z.-]`. -/
def metaChar (c : Char) : Bool :=
  c.isDigit || (decide ('A' ≤ c) && decide (c ≤ 'Z')) ||
    (decide ('a' ≤ c) && decide (c ≤ 'z')) || c == '.' || c == '-'

/-- `re.fullmatch(r"v\d+\.\d+\.\d+(?:[-+][0-9A-Za-z.-]+)?", tag)` as a
boolean: at most one suffix, introduced by `-` or `+`, body in
`[0-9A-Za-z.-]` (which does not include `+`). -/
def validNightlyTag (tag : String) : Bool :=
  match parseVersionCore tag.data with
  | none => false
  | some [] => true
  | some (c :: rest) => (c == '-' || c == '+') && !rest.isEmpty && rest.all metaChar

/-- The fatal message produced for a tag rejected by the selected channel. -/
def tagErrorMsg (channel : Channel) (tag : String) : String :=
  match channel with
  | Channel.stable => "Expected stable tag vX.Y.Z, got: " ++ tag
  | Channel.nightly =>
      "Expected nightly tag vX.Y.Z(-pre)?(+meta)? or " ++ squote ++ "nightly" ++ squote ++
        ", got: " ++ tag

/-- The tag-validation block at the top of `main()`: stable tags must fully
match `v\d+\.\d+\.\d+`; on the nightly channel the literal tag `nightly` is
accepted, and any other tag must fully match
`v\d+\.\d+\.\d+(?:[-+][0-9A-Za-z.-]+)?`. -/
def checkTag (channel : Channel) (tag : String) : Except String Unit :=
  match channel with
  | Channel.stable =>
    if validStableTag tag then Except.ok () else Except.error (tagErrorMsg channel tag)
  | Channel.nightly =>
    if tag = "nightly" then Except.ok ()
    else if validNightlyTag tag then Except.ok ()
    else Except.error (tagErrorMsg channel tag)

/-- Truthiness of an optional string (missing/`null`/empty are falsy). -/
def truthyOpt : Option String → Bool
  | none => false
  | some s => !(s = "")

/-- `release.get("published_at") or release.get("created_at")`, failing when
the result is falsy. -/
def resolvePubDate (r : Release) : Except String String :=
  match (if truthyOpt r.published_at then r.published_at else r.created_at) with
  | some s => if s = "" then Except.error ("Release missing published_at/created_at") else Except.ok s
  | none => Except.error ("Release missing published_at/created_at")

/-- `assets = release.get("assets") or []` followed by the `isinstance(assets,
list)` check: a missing or falsy value is replaced by the empty list; only a
truthy non-list value is fatal. -/
def getAssets (r : Release) : Except String (List Asset) :=
  match r.assets with
  | none => Except.ok []
  | some (AssetsField.list items) => Except.ok items
  | some (AssetsField.other t) =>
    if t then Except.error ("Release assets payload invalid") else Except.ok []

/-- The version string: the explicit `--version` when non-empty, else the tag,
in both cases with a leading `v` stripped. -/
def deriveVersion (args : Args) : String :=
  if args.version = "" then removeprefixV args.tag else removeprefixV args.version

/-- The channel label used in the default notes template. -/
def channelLabel : Channel → String
  | Channel.stable => "Stable"
  | Channel.nightly => "Nightly"

/-- The default notes text synthesized from version, channel label and the
release's `html_url`. -/
def defaultNotes (version label htmlUrl : String) : String :=
  pyStrip ("VoiceWise v" ++ version ++ "（" ++ label ++ "）\n\n更新说明请查看：" ++ htmlUrl)

/-- The notes resolution: the stripped `--notes` when non-blank, else the
default template. -/
def deriveNotes (args : Args) (release : Release) (version : String) : String :=
  if pyStrip args.notes = "" then
    defaultNotes version (channelLabel args.channel) (release.html_url.getD (""))
  else pyStrip args.notes

/-- The static platform target for darwin/aarch64. -/
def targetDarwinArm : Target :=
  { os_target := "darwin", arch_canonical := "aarch64",
    platform_aliases := ["macos", "darwin"], arch_aliases := ["aarch64", "arm64"],
    extensions := [".app.tar.gz", ".tar.gz"] }

/-- The static platform target for darwin/x86_64. -/
def targetDarwinX64 : Target :=
  { os_target := "darwin", arch_canonical := "x86_64",
    platform_aliases := ["macos", "darwin"], arch_aliases := ["x86_64", "x64"],
    extensions := [".app.tar.gz", ".tar.gz"] }

/-- The static platform target for windows/x86_64. -/
def targetWindowsX64 : Target :=
  { os_target := "windows", arch_canonical := "x86_64",
    platform_aliases := ["windows"], arch_aliases := ["x86_64", "x64"],
    extensions := [".exe"] }

/-- The statically configured target list of `main()`. -/
def targets : List Target := [targetDarwinArm, targetDarwinX64, targetWindowsX64]

/-- The manifest platform key, os_target and arch_canonical joined by a dash. -/
def targetKey (t : Target) : String := t.os_target ++ "-" ++ t.arch_canonical

/-- The parsed `--platforms` filter: comma-split, stripped, blanks dropped. -/
def parseFilter (platforms : String) : List String :=
  ((platforms.splitOn (",")).map pyStrip).filter (fun p => !(p = ""))

/-- Target selection: with a non-empty `--platforms` the static list is
filtered by key, and an empty selection is fatal. -/
def filterTargets (platforms : String) : Except String (List Target) :=
  if platforms = "" then Except.ok targets
  else
    let ts := targets.filter (fun t => containsStr (parseFilter platforms) (targetKey t))
    if ts = [] then
      Except.error ("No targets matched --platforms filter: " ++ platforms)
    else Except.ok ts

/-- The inner extension loop of the per-target search: each failed combination
replaces `last_error`; the first success wins. -/
def tryExts (assets : List Asset) (version : String) (aliases : List String) (arch : String) :
    List String → Option String → Except (Option String) Asset
  | [], last => Except.error last
  | ext :: rest, _last =>
    match find_updater_asset assets version aliases arch ext with
    | Except.ok a => Except.ok a
    | Except.error e => tryExts assets version aliases arch rest (some e)

/-- The outer arch-alias loop: the first successful combination also records
the matched arch alias. -/
def tryArchs (assets : List Asset) (version : String) (aliases : List String)
    (exts : List String) : List String → Option String → Except (Option String) (Asset × String)
  | [], last => Except.error last
  | arch :: archs, last =>
    match tryExts assets version aliases arch exts last with
    | Except.ok a => Except.ok (a, arch)
    | Except.error last2 => tryArchs assets version aliases exts archs last2

/-- The whole per-target updater search: iterate arch aliases × extensions in
priority order; on failure return the last error (if any combination was
attempted). -/
def resolveTarget (assets : List Asset) (version : String) (t : Target) :
    Except (Option String) (Asset × String) :=
  tryArchs assets version t.platform_aliases t.extensions t.arch_aliases none

/-- The stderr line printed when a target is skipped. -/
def skipMsg (t : Target) (e : Option String) : String :=
  "[generate-updater-manifests] skipping " ++ targetKey t ++ ": " ++
    (match e with
     | some m => m
     | none => "no matching asset")

/-- The per-target loop of `main()`: unresolved targets are logged and
skipped; a resolved target's signature lookup, download and UTF-8 decode
(modelled by `sf`) are fatal on failure; successes append
`(platform key, {signature, url})` to the accumulating manifest platforms. -/
def processTargets (assets : List Asset) (version : String)
    (sf : String → Except String String) :
    List Target → List (String × PlatEntry) → List String →
      Except String (List (String × PlatEntry) × List String)
  | [], acc, logs => Except.ok (acc, logs)
  | t :: ts, acc, logs =>
    match resolveTarget assets version t with
    | Except.error last => processTargets assets version sf ts acc (logs ++ [skipMsg t last])
    | Except.ok (ua, matchedArch) =>
      match find_signature_asset assets version t.platform_aliases
          (if matchedArch = "" then t.arch_aliases.headD ("") else matchedArch) ua.name with
      | Except.error e => Except.error e
      | Except.ok sa =>
        match sf sa.url with
        | Except.error e => Except.error e
        | Except.ok content =>
          processTargets assets version sf ts
            (acc ++ [(targetKey t,
              { signature := pyStrip content, url := ua.browser_download_url })]) logs

/-- `main()` after argument parsing: tag validation, release fetch (the
`fetchRelease` oracle), timestamp and assets extraction, version and notes
resolution, target filtering, the per-target loop, the non-empty check, and
manifest assembly.  The returned log list is the stderr "skipping" output. -/
def runMain (args : Args) (fetchRelease : Except String Release)
    (sf : String → Except String String) : Except String (Manifest × List String) :=
  match checkTag args.channel args.tag with
  | Except.error e => Except.error e
  | Except.ok _ =>
    match fetchRelease with
    | Except.error e => Except.error e
    | Except.ok release =>
      match resolvePubDate release with
      | Except.error e => Except.error e
      | Except.ok published_at =>
        match getAssets release with
        | Except.error e => Except.error e
        | Except.ok assets =>
          match filterTargets args.platforms with
          | Except.error e => Except.error e
          | Except.ok ts =>
            match processTargets assets (deriveVersion args) sf ts [] [] with
            | Except.error e => Except.error e
            | Except.ok (plats, logs) =>
              if plats = [] then
                Except.error ("No platform assets found — cannot generate manifest")
              else
                Except.ok
                  ({ version := deriveVersion args, pub_date := published_at,
                     platforms := plats,
                     notes := deriveNotes args release (deriveVersion args) }, logs)

/-- A nonempty all-digit character string (the spec's MAJOR/MINOR/PATCH). -/
def isDigitStr (s : List Char) : Prop := s ≠ [] ∧ ∀ c ∈ s, c.isDigit = true

/-- Spec-side reading of the stable tag format: an exact `vMAJOR.MINOR.PATCH`
match. -/
def specStableTag (tag : String) : Prop :=
  ∃ a b c : List Char,
    tag.data = 'v' :: (a ++ '.' :: (b ++ '.' :: c)) ∧ isDigitStr a ∧ isDigitStr b ∧ isDigitStr c

/-- The suffix shape the nightly regex actually accepts: empty, or exactly one
suffix, introduced by `-` or `+`, with a nonempty `[0-9A-Za-z.-]` body. -/
def specNightlySuffixOne (s : List Char) : Prop :=
  s = [] ∨ ∃ x r, s = x :: r ∧ (x = '-' ∨ x = '+') ∧ r ≠ [] ∧ ∀ ch ∈ r, metaChar ch = true

/-- A version-shaped nightly tag with the suffix shape the code accepts. -/
def specNightlyVer (tag : String) : Prop :=
  ∃ a b c s : List Char,
    tag.data = 'v' :: (a ++ '.' :: (b ++ '.' :: (c ++ s))) ∧
      isDigitStr a ∧ isDigitStr b ∧ isDigitStr c ∧ specNightlySuffixOne s

/-- The full nightly tag set the code accepts: the sentinel `nightly` or a
version-shaped tag with at most one suffix. -/
def specNightlyAmended (tag : String) : Prop :=
  tag = "nightly" ∨ specNightlyVer tag

/-- The spec's reading of the nightly suffix: optionally a `-prerelease`
and/or a `+buildmetadata` suffix (so possibly both together), with nonempty
bodies over `[0-9A-Za-z.-]`. -/
def specSuffixFull (s : List Char) : Prop :=
  s = [] ∨
    (∃ p, p ≠ [] ∧ (∀ ch ∈ p, metaChar ch = true) ∧ s = '-' :: p) ∨
    (∃ m, m ≠ [] ∧ (∀ ch ∈ m, metaChar ch = true) ∧ s = '+' :: m) ∨
    (∃ p m, p ≠ [] ∧ (∀ ch ∈ p, metaChar ch = true) ∧ m ≠ [] ∧
      (∀ ch ∈ m, metaChar ch = true) ∧ s = '-' :: (p ++ '+' :: m))

/-- The spec's full nightly tag format (a superset of what the code
accepts). -/
def specNightlyConforms (tag : String) : Prop :=
  tag = "nightly" ∨
    ∃ a b c s : List Char,
      tag.data = 'v' :: (a ++ '.' :: (b ++ '.' :: (c ++ s))) ∧
        isDigitStr a ∧ isDigitStr b ∧ isDigitStr c ∧ specSuffixFull s

/-! ### Concrete release scenarios used as witnesses and counterexamples -/

/-- darwin/aarch64 updater asset. -/
def a1 : Asset :=
  { name := "app_1.0.0_darwin_aarch64.app.tar.gz", url := "su1x", browser_download_url := "b1" }

/-- darwin/aarch64 exact signature asset. -/
def s1 : Asset :=
  { name := "app_1.0.0_darwin_aarch64.app.tar.gz.sig", url := "su1", browser_download_url := "sb1" }

/-- darwin/x86_64 updater asset. -/
def a2 : Asset :=
  { name := "app_1.0.0_darwin_x86_64.app.tar.gz", url := "su2x", browser_download_url := "b2" }

/-- darwin/x86_64 exact signature asset. -/
def s2 : Asset :=
  { name := "app_1.0.0_darwin_x86_64.app.tar.gz.sig", url := "su2", browser_download_url := "sb2" }

/-- windows/x86_64 updater asset. -/
def a3 : Asset :=
  { name := "app_1.0.0_windows_x86_64.exe", url := "su3x", browser_download_url := "b3" }

/-- windows/x86_64 exact signature asset. -/
def s3 : Asset :=
  { name := "app_1.0.0_windows_x86_64.exe.sig", url := "su3", browser_download_url := "sb3" }

/-- A complete, unambiguous release: every target resolves. -/
def assets0 : List Asset := [a1, s1, a2, s2, a3, s3]

/-- The release payload around `assets0`. -/
def release0 : Release :=
  { published_at := some ("2024-01-01T00:00:00Z"), created_at := none,
    html_url := some ("https://example.com/rel"), assets := some (AssetsField.list assets0) }

/-- Default arguments: stable channel, tag `v1.0.0`, no overrides. -/
def args0 : Args :=
  { tag := "v1.0.0", channel := Channel.stable, notes := "", platforms := "", version := "" }

/-- A signature-download oracle that returns the requested URL as content. -/
def sigFetch0 : String → Except String String := fun u => Except.ok u

/-- The platform map produced from `assets0` under `sigFetch0`. -/
def plats0 : List (String × PlatEntry) :=
  [("darwin-aarch64", { signature := "su1", url := "b1" }),
   ("darwin-x86_64", { signature := "su2", url := "b2" }),
   ("windows-x86_64", { signature := "su3", url := "b3" })]

/-- The manifest produced from `args0`/`release0`/`sigFetch0`. -/
def m0 : Manifest :=
  { version := "1.0.0", pub_date := "2024-01-01T00:00:00Z", platforms := plats0,
    notes := "VoiceWise v1.0.0（Stable）\n\n更新说明请查看：https://example.com/rel" }

/-- The windows updater asset name used in the signature-fallback scenarios. -/
def uW : String := "app_1.0.0_windows_x86_64.exe"

/-- A fallback signature candidate containing `uW`, lexicographically first. -/
def c1a : Asset :=
  { name := "app_1.0.0_windows_x86_64.exe.alpha.sig", url := "ua", browser_download_url := "ba" }

/-- A fallback signature candidate containing `uW`, lexicographically second. -/
def c1b : Asset :=
  { name := "app_1.0.0_windows_x86_64.exe.beta.sig", url := "ub", browser_download_url := "bb" }

/-- A fallback signature candidate not containing `uW`. -/
def c1c : Asset :=
  { name := "zz_1.0.0_windows_x86_64.sig", url := "uc", browser_download_url := "bc" }

/-- Two updater assets matching the same windows combination. -/
def w1 : Asset :=
  { name := "a_1.0.0_windows_x86_64.exe", url := "wu1", browser_download_url := "wb1" }

/-- Second updater asset matching the same windows combination. -/
def w2 : Asset :=
  { name := "b_1.0.0_windows_x86_64.exe", url := "wu2", browser_download_url := "wb2" }

/-- Release assets with an ambiguous windows updater match but a fully
resolvable darwin/aarch64 target. -/
def assetsC2 : List Asset := [a1, s1, w1, w2]

/-- The release payload around `assetsC2`. -/
def releaseC2 : Release := { release0 with assets := some (AssetsField.list assetsC2) }

/-- Release assets where only darwin/aarch64 is present. -/
def assets3 : List Asset := [a1, s1]

/-- The release payload around `assets3`. -/
def release3 : Release := { release0 with assets := some (AssetsField.list assets3) }

/-- A toy target with no arch aliases: its resolution loop attempts no
combination and fails with `last_error = None`. -/
def tToy : Target :=
  { os_target := "os", arch_canonical := "arch", platform_aliases := ["p"],
    arch_aliases := [], extensions := [".x"] }

/-- A null signature oracle. -/
def sfNull : String → Except String String := fun _ => Except.error ("")

/-- Ambiguous windows signature fallback: two pattern-matching `.sig` assets,
neither containing the updater name, and no exact `.sig`. -/
def sw1 : Asset :=
  { name := "a_1.0.0_windows_x86_64.aa.sig", url := "swu1", browser_download_url := "swb1" }

/-- Second ambiguous windows signature candidate. -/
def sw2 : Asset :=
  { name := "b_1.0.0_windows_x86_64.bb.sig", url := "swu2", browser_download_url := "swb2" }

/-- Release assets where darwin/aarch64 fully resolves but the windows
signature lookup is ambiguous. -/
def assetsC4 : List Asset := [a1, s1, a3, sw1, sw2]

/-- The release payload around `assetsC4`. -/
def releaseC4 : Release := { release0 with assets := some (AssetsField.list assetsC4) }

/-- A release payload with no `assets` key at all. -/
def relNoAssets : Release :=
  { published_at := some ("2024-01-01T00:00:00Z"), created_at := none,
    html_url := some ("https://example.com/rel"), assets := none }

/-- Arguments with a malformed stable tag (missing the leading `v`). -/
def args7 : Args := { args0 with tag := "1.2.3" }

/-- Arguments whose `--notes` value is whitespace only. -/
def argsN : Args := { args0 with notes := "  \n\t " }
/-! ### Helper lemmas: span and tag parsing -/

/-- `spanP` on a split whose left part satisfies `p` and whose right part does
not start with a `p`-character returns exactly that split. -/
theorem spanP_append (p : Char → Bool) (a b : List Char)
    (ha : ∀ c ∈ a, p c = true) (hb : ∀ c t, b = c :: t → p c = false) :
    spanP p (a ++ b) = (a, b) := by
  induction a with
  | nil =>
    cases b with
    | nil => rfl
    | cons c t => simp [spanP, hb c t rfl]
  | cons x xs ih =>
    have hx : p x = true := ha x (by simp)
    have ih2 := ih (fun c hc => ha c (by simp [hc]))
    simp [spanP, hx, ih2]

/-- Soundness of `spanP`: it splits its input, the left part satisfies `p`,
and the right part does not start with a `p`-character. -/
theorem spanP_sound (p : Char → Bool) (l : List Char) :
    ∀ a b, spanP p l = (a, b) →
      l = a ++ b ∧ (∀ c ∈ a, p c = true) ∧ (∀ c t, b = c :: t → p c = false) := by
  induction l with
  | nil =>
    intro a b h
    simp only [spanP] at h
    obtain ⟨rfl, rfl⟩ := Prod.mk.injEq .. ▸ h
    exact ⟨rfl, by simp, by simp⟩
  | cons x r ih =>
    intro a b h
    cases hx : p x with
    | true =>
      simp only [spanP, hx, if_pos] at h
      obtain ⟨h1, h2⟩ := Prod.mk.inj (h.symm)
      obtain ⟨hl, hall, hhead⟩ := ih (spanP p r).1 (spanP p r).2 rfl
      subst h1
      subst h2
      refine ⟨by simpa using congrArg (List.cons x) hl, ?_, hhead⟩
      intro c hc
      rcases List.mem_cons.mp hc with rfl | hc2
      · exact hx
      · exact hall c hc2
    | false =>
      simp only [spanP, hx] at h
      obtain ⟨h1, h2⟩ := Prod.mk.inj (h.symm)
      subst h1
      subst h2
      exact ⟨rfl, by simp, by intro c t ht; cases ht; exact hx⟩

/-- Soundness of `parseVersionCore`: success yields the
`v<digits>.<digits>.<digits>` decomposition, and the unconsumed rest does not
start with a digit. -/
theorem parseVersionCore_sound (l r : List Char) (h : parseVersionCore l = some r) :
    ∃ a b c, l = 'v' :: (a ++ '.' :: (b ++ '.' :: (c ++ r))) ∧
      isDigitStr a ∧ isDigitStr b ∧ isDigitStr c ∧
      (∀ x t, r = x :: t → x.isDigit = false) := by
  cases l with
  | nil => simp [parseVersionCore] at h
  | cons c0 rest =>
    by_cases h0 : c0 = 'v'
    case neg => simp [parseVersionCore, h0] at h
    subst h0
    rw [parseVersionCore] at h
    simp only [if_pos rfl] at h
    obtain ⟨d1, r1, hsp1⟩ : ∃ d1 r1, spanP Char.isDigit rest = (d1, r1) :=
      ⟨_, _, rfl⟩
    rw [hsp1] at h
    obtain ⟨hrest, hd1, hr1⟩ := spanP_sound Char.isDigit rest d1 r1 hsp1
    by_cases he1 : d1 = []
    · simp [he1] at h
    simp only [he1, if_neg, ite_false, if_true, ite_true] at h
    cases r1 with
    | nil => simp at h
    | cons c1 r2 =>
      by_cases hc1 : c1 = '.'
      case neg => simp [hc1] at h
      subst hc1
      simp only [if_pos rfl] at h
      obtain ⟨d2, r3, hsp2⟩ : ∃ d2 r3, spanP Char.isDigit r2 = (d2, r3) := ⟨_, _, rfl⟩
      rw [hsp2] at h
      obtain ⟨hr2eq, hd2, hr3⟩ := spanP_sound Char.isDigit r2 d2 r3 hsp2
      by_cases he2 : d2 = []
      · simp [he2] at h
      simp only [he2, if_neg, ite_false, if_true, ite_true] at h
      cases r3 with
      | nil => simp at h
      | cons c2 r4 =>
        by_cases hc2 : c2 = '.'
        case neg => simp [hc2] at h
        subst hc2
        simp only [if_pos rfl] at h
        obtain ⟨d3, r5, hsp3⟩ : ∃ d3 r5, spanP Char.isDigit r4 = (d3, r5) := ⟨_, _, rfl⟩
        rw [hsp3] at h
        obtain ⟨hr4eq, hd3, hr5⟩ := spanP_sound Char.isDigit r4 d3 r5 hsp3
        by_cases he3 : d3 = []
        · simp [he3] at h
        simp only [he3, if_neg, ite_false, if_true, ite_true, Option.some.injEq] at h
        subst h
        refine ⟨d1, d2, d3, ?_, ⟨he1, hd1⟩, ⟨he2, hd2⟩, ⟨he3, hd3⟩, hr5⟩
        subst hrest
        subst hr2eq
        subst hr4eq
        rfl

/-- Completeness of `parseVersionCore` on a well-shaped decomposition whose
rest does not start with a digit. -/
theorem parseVersionCore_complete (a b c s : List Char)
    (ha : isDigitStr a) (hb : isDigitStr b) (hc : isDigitStr c)
    (hs : ∀ x t, s = x :: t → x.isDigit = false) :
    parseVersionCore ('v' :: (a ++ '.' :: (b ++ '.' :: (c ++ s)))) = some s := by
  have hdot : ∀ (z : List Char) (ch : Char) (t : List Char),
      ('.' :: z) = ch :: t → ch.isDigit = false := by
    intro z ch t ht
    cases ht
    decide
  have h1 : spanP Char.isDigit (a ++ '.' :: (b ++ '.' :: (c ++ s))) =
      (a, '.' :: (b ++ '.' :: (c ++ s))) :=
    spanP_append Char.isDigit a _ ha.2 (hdot _)
  have h2 : spanP Char.isDigit (b ++ '.' :: (c ++ s)) = (b, '.' :: (c ++ s)) :=
    spanP_append Char.isDigit b _ hb.2 (hdot _)
  have h3 : spanP Char.isDigit (c ++ s) = (c, s) :=
    spanP_append Char.isDigit c s hc.2 hs
  rw [parseVersionCore]
  simp only [if_pos rfl, h1, ha.1, ite_false, h2, hb.1, h3, hc.1]
  simp [ha.1, hb.1, hc.1]

/-- The stable validator accepts exactly the spec's `vMAJOR.MINOR.PATCH`
tags. -/
theorem validStableTag_iff (tag : String) : validStableTag tag = true ↔ specStableTag tag := by
  constructor
  · intro h
    have hp : parseVersionCore tag.data = some [] := of_decide_eq_true h
    obtain ⟨a, b, c, heq, ha, hb, hc, _⟩ := parseVersionCore_sound tag.data [] hp
    exact ⟨a, b, c, by simpa using heq, ha, hb, hc⟩
  · rintro ⟨a, b, c, heq, ha, hb, hc⟩
    have hp := parseVersionCore_complete a b c [] ha hb hc (by intro x t ht; cases ht)
    have : parseVersionCore tag.data = some [] := by
      rw [heq]
      simpa using hp
    exact decide_eq_true this

/-- The nightly validator accepts exactly the version-shaped tags with at most
one `[-+][0-9A-Za-z.-]+` suffix. -/
theorem validNightlyTag_iff (tag : String) : validNightlyTag tag = true ↔ specNightlyVer tag := by
  constructor
  · intro h
    rw [validNightlyTag] at h
    cases hp : parseVersionCore tag.data with
    | none => rw [hp] at h; cases h
    | some s =>
      rw [hp] at h
      obtain ⟨a, b, c, heq, ha, hb, hc, hrest⟩ := parseVersionCore_sound tag.data s hp
      refine ⟨a, b, c, s, heq, ha, hb, hc, ?_⟩
      cases s with
      | nil => exact Or.inl rfl
      | cons x r =>
        simp only [Bool.and_eq_true, Bool.or_eq_true, beq_iff_eq] at h
        refine Or.inr ⟨x, r, rfl, h.1.1, ?_, ?_⟩
        · intro hr
          rw [hr] at h
          simpa using h.1.2
        · exact fun ch hch => List.all_eq_true.mp h.2 ch hch
  · rintro ⟨a, b, c, s, heq, ha, hb, hc, hsuf⟩
    have hhead : ∀ x t, s = x :: t → x.isDigit = false := by
      intro x t ht
      rcases hsuf with rfl | ⟨x2, r2, hs2, hx2, _, _⟩
      · cases ht
      · rw [hs2] at ht
        cases ht
        rcases hx2 with rfl | rfl <;> decide
    have hp : parseVersionCore tag.data = some s := by
      rw [heq]
      exact parseVersionCore_complete a b c s ha hb hc hhead
    rw [validNightlyTag, hp]
    rcases hsuf with rfl | ⟨x, r, hs, hx, hr, hall⟩
    · rfl
    · subst hs
      have h1 : (x == '-' || x == '+') = true := by
        rcases hx with rfl | rfl <;> rfl
      have h2 : r.isEmpty = false := by
        cases r with
        | nil => exact absurd rfl hr
        | cons y ys => rfl
      have h3 : r.all metaChar = true := List.all_eq_true.mpr hall
      show ((x == '-' || x == '+') && !r.isEmpty && r.all metaChar) = true
      rw [h1, h2, h3]
      rfl

/-- `checkTag` on the stable channel succeeds exactly on valid stable tags. -/
theorem checkTag_stable_iff (tag : String) :
    checkTag Channel.stable tag = Except.ok () ↔ specStableTag tag := by
  rw [checkTag]
  by_cases h : validStableTag tag = true
  · simp [h, validStableTag_iff tag |>.mp h]
  · rw [if_neg h]
    constructor
    · intro hcontra
      exact Except.noConfusion hcontra
    · intro hspec
      exact absurd (validStableTag_iff tag |>.mpr hspec) h

/-- `checkTag` on the nightly channel succeeds exactly on the sentinel
`nightly` or a version-shaped tag with at most one suffix. -/
theorem checkTag_nightly_iff (tag : String) :
    checkTag Channel.nightly tag = Except.ok () ↔ specNightlyAmended tag := by
  rw [checkTag, specNightlyAmended]
  by_cases hn : tag = "nightly"
  · simp [hn]
  · by_cases hv : validNightlyTag tag = true
    · simp [hn, hv, validNightlyTag_iff tag |>.mp hv]
    · rw [if_neg hn, if_neg hv]
      constructor
      · intro hcontra
        exact Except.noConfusion hcontra
      · rintro (h | h)
        · exact absurd h hn
        · exact absurd (validNightlyTag_iff tag |>.mpr h) hv

/-! ### Helper lemmas: the stable sort of the signature fallback -/

/-- `insertByStable` produces a permutation of consing the element. -/
theorem insertByStable_perm (lt : α → α → Bool) (x : α) (l : List α) :
    List.Perm (insertByStable lt x l) (x :: l) := by
  induction l with
  | nil => exact List.Perm.refl _
  | cons y ys ih =>
    by_cases h : lt y x = true
    · rw [insertByStable, if_pos h]
      exact (ih.cons y).trans (List.Perm.swap x y ys)
    · rw [insertByStable, if_neg h]

/-- `sortByStable` permutes its input. -/
theorem sortByStable_perm (lt : α → α → Bool) (l : List α) :
    List.Perm (sortByStable lt l) l := by
  induction l with
  | nil => exact List.Perm.refl _
  | cons x xs ih =>
    exact (insertByStable_perm lt x (sortByStable lt xs)).trans (ih.cons x)

/-- A true `sigLt` comparison gives flag order. -/
theorem sigLt_le (u : String) (a b : Asset) (h : sigLt u a b = true) :
    sigFlag u a ≤ sigFlag u b := by
  by_cases h1 : sigFlag u a < sigFlag u b
  · exact Nat.le_of_lt h1
  · by_cases h2 : sigFlag u a = sigFlag u b
    · exact Nat.le_of_eq h2
    · rw [sigLt, if_neg h1, if_neg h2] at h
      cases h

/-- A false `sigLt` comparison gives the reverse flag order. -/
theorem sigLt_false_le (u : String) (a b : Asset) (h : sigLt u a b = false) :
    sigFlag u b ≤ sigFlag u a := by
  by_cases h1 : sigFlag u a < sigFlag u b
  · rw [sigLt, if_pos h1] at h
    cases h
  · exact Nat.le_of_not_lt h1

/-- The head of the sorted candidate list has the minimal contains-flag. -/
theorem sortByStable_head_min (u : String) (l : List Asset) :
    ∀ b t, sortByStable (sigLt u) l = b :: t → ∀ x ∈ l, sigFlag u b ≤ sigFlag u x := by
  induction l with
  | nil => intro b t h; simp [sortByStable] at h
  | cons a as ih =>
    intro b t h x hx
    rw [sortByStable] at h
    cases hs : sortByStable (sigLt u) as with
    | nil =>
      have hasnil : as = [] := by
        have hperm := sortByStable_perm (sigLt u) as
        rw [hs] at hperm
        have hlen0 : as.length = 0 := by simpa using hperm.length_eq.symm
        exact List.length_eq_zero.mp hlen0
      rw [hs, insertByStable] at h
      obtain ⟨rfl, -⟩ := List.cons.inj h
      rcases List.mem_cons.mp hx with rfl | hx2
      · exact Nat.le_refl _
      · rw [hasnil] at hx2
        cases hx2
    | cons h0 t0 =>
      rw [hs] at h
      by_cases hlt : sigLt u h0 a = true
      · rw [insertByStable, if_pos hlt] at h
        obtain ⟨rfl, -⟩ := List.cons.inj h
        rcases List.mem_cons.mp hx with rfl | hx2
        · exact sigLt_le u h0 x hlt
        · exact ih h0 t0 hs x hx2
      · rw [insertByStable, if_neg hlt] at h
        obtain ⟨rfl, -⟩ := List.cons.inj h
        have hba : sigFlag u a ≤ sigFlag u h0 :=
          sigLt_false_le u h0 a (Bool.eq_false_iff.mpr hlt)
        rcases List.mem_cons.mp hx with rfl | hx2
        · exact Nat.le_refl _
        · exact Nat.le_trans hba (ih h0 t0 hs x hx2)

/-- The contains-flag is zero exactly on names containing the updater name. -/
theorem sigFlag_eq_zero_iff (u : String) (x : Asset) :
    sigFlag u x = 0 ↔ isSubstr u x.name = true := by
  rw [sigFlag]
  by_cases h : isSubstr u x.name = true <;> simp [h]

/-! ### Helper lemmas: the per-target loop and the main pipeline -/

/-- Stripping the leading `v` from `"v" ++ s` gives `s`. -/
theorem removeprefixV_v (s : String) : removeprefixV ("v" ++ s) = s := by
  cases s with
  | mk data => rfl

/-- A whitespace-only string strips to the empty string. -/
theorem pyStrip_all_space (s : String) (h : s.data.all isPySpace = true) : pyStrip s = "" := by
  have h1 : s.data.dropWhile isPySpace = [] :=
    List.dropWhile_eq_nil_iff.mpr (fun c hc => List.all_eq_true.mp h c hc)
  rw [pyStrip, h1]
  rfl

/-- Invariant of the per-target loop when it returns successfully: the
accumulators grow by exactly the resolved targets' entries and the skipped
targets' log lines; the new entries are empty exactly when every target failed
to resolve; every failed target's skip line is logged; and every new platform
key comes from a successfully resolved listed target. -/
theorem processTargets_ok (assets : List Asset) (v : String)
    (sf : String → Except String String) :
    ∀ (ts : List Target) (acc : List (String × PlatEntry)) (logs : List String)
      (plats : List (String × PlatEntry)) (lgs : List String),
      processTargets assets v sf ts acc logs = Except.ok (plats, lgs) →
      ∃ extra lextra, plats = acc ++ extra ∧ lgs = logs ++ lextra ∧
        (extra = [] ↔ ∀ t ∈ ts, isErrE (resolveTarget assets v t) = true) ∧
        (∀ t ∈ ts, ∀ e, resolveTarget assets v t = Except.error e → skipMsg t e ∈ lextra) ∧
        (∀ k ∈ extra.map Prod.fst,
          ∃ t, t ∈ ts ∧ k = targetKey t ∧ isOkE (resolveTarget assets v t) = true) := by
  intro ts
  induction ts with
  | nil =>
    intro acc logs plats lgs h
    rw [processTargets] at h
    obtain ⟨h1, h2⟩ := Prod.mk.inj (Except.ok.inj h)
    refine ⟨[], [], by simp [h1.symm], by simp [h2.symm], by simp, by simp, by simp⟩
  | cons t ts ih =>
    intro acc logs plats lgs h
    rw [processTargets] at h
    split at h
    · rename_i last hr
      obtain ⟨extra, lextra, he1, he2, he3, he4, he5⟩ :=
        ih acc (logs ++ [skipMsg t last]) plats lgs h
      refine ⟨extra, skipMsg t last :: lextra, he1, by simp [he2], ?_, ?_, ?_⟩
      · constructor
        · intro hx t2 ht2
          rcases List.mem_cons.mp ht2 with rfl | h2
          · rw [hr]; rfl
          · exact (he3.mp hx) t2 h2
        · intro hall
          exact he3.mpr (fun t2 ht2 => hall t2 (List.mem_cons_of_mem t ht2))
      · intro t2 ht2 e he
        rcases List.mem_cons.mp ht2 with rfl | h2
        · rw [hr] at he
          obtain rfl := Except.error.inj he
          simp
        · exact List.mem_cons_of_mem _ (he4 t2 h2 e he)
      · intro k hk
        obtain ⟨t2, ht2, hkey, hok⟩ := he5 k hk
        exact ⟨t2, List.mem_cons_of_mem t ht2, hkey, hok⟩
    · rename_i ua matchedArch hr
      split at h
      · exact Except.noConfusion h
      · rename_i sa hsig
        split at h
        · exact Except.noConfusion h
        · rename_i content hsf
          obtain ⟨extra, lextra, he1, he2, he3, he4, he5⟩ :=
            ih (acc ++ [(targetKey t,
              { signature := pyStrip content, url := ua.browser_download_url })]) logs plats lgs h
          refine ⟨(targetKey t,
              { signature := pyStrip content, url := ua.browser_download_url }) :: extra,
            lextra, by simp [he1], he2, ?_, ?_, ?_⟩
          · constructor
            · intro hx
              cases hx
            · intro hall
              have hcon := hall t (by simp)
              rw [hr] at hcon
              simp [isErrE] at hcon
          · intro t2 ht2 e he
            rcases List.mem_cons.mp ht2 with rfl | h2
            · rw [hr] at he
              exact Except.noConfusion he
            · exact he4 t2 h2 e he
          · intro k hk
            rcases List.mem_cons.mp hk with hk1 | hk2
            · refine ⟨t, by simp, by simpa using hk1, by rw [hr]; rfl⟩
            · obtain ⟨t2, ht2, hkey, hok⟩ := he5 k hk2
              exact ⟨t2, List.mem_cons_of_mem t ht2, hkey, hok⟩

/-- Inversion of successful target filtering: the selected targets are listed
targets, they satisfy a non-empty filter when one was given, and their keys
are distinct. -/
theorem filterTargets_ok (s : String) (ts : List Target)
    (h : filterTargets s = Except.ok ts) :
    (∀ t ∈ ts, t ∈ targets) ∧
    (s ≠ "" → ∀ t ∈ ts, containsStr (parseFilter s) (targetKey t) = true) ∧
    (ts.map targetKey).Nodup := by
  rw [filterTargets] at h
  by_cases hs : s = ""
  · rw [if_pos hs] at h
    obtain rfl := (Except.ok.inj h).symm
    exact ⟨fun t ht => ht, fun hneq => absurd hs hneq, by decide⟩
  · rw [if_neg hs] at h
    by_cases hts : targets.filter (fun t => containsStr (parseFilter s) (targetKey t)) = []
    · rw [if_pos hts] at h
      exact Except.noConfusion h
    · rw [if_neg hts] at h
      obtain rfl := (Except.ok.inj h).symm
      refine ⟨fun t ht => (List.mem_filter.mp ht).1,
        fun _ t ht => (List.mem_filter.mp ht).2, ?_⟩
      have hsub := (List.filter_sublist
        (p := fun t => containsStr (parseFilter s) (targetKey t)) targets).map targetKey
      exact (show (targets.map targetKey).Nodup by decide).sublist hsub

/-- Inversion of a successful run: every pipeline stage succeeded and the
manifest is assembled from the stage results. -/
theorem runMain_ok_inv (args : Args) (fr : Except String Release)
    (sf : String → Except String String) (m : Manifest) (lgs : List String)
    (h : runMain args fr sf = Except.ok (m, lgs)) :
    ∃ release p a ts plats,
      fr = Except.ok release ∧
      checkTag args.channel args.tag = Except.ok () ∧
      resolvePubDate release = Except.ok p ∧
      getAssets release = Except.ok a ∧
      filterTargets args.platforms = Except.ok ts ∧
      processTargets a (deriveVersion args) sf ts [] [] = Except.ok (plats, lgs) ∧
      plats ≠ [] ∧
      m = { version := deriveVersion args, pub_date := p, platforms := plats,
            notes := deriveNotes args release (deriveVersion args) } := by
  rw [runMain.eq_def] at h
  split at h
  · exact Except.noConfusion h
  · rename_i u hc
    split at h
    · exact Except.noConfusion h
    · rename_i release
      split at h
      · exact Except.noConfusion h
      · rename_i p hp
        split at h
        · exact Except.noConfusion h
        · rename_i a ha
          split at h
          · exact Except.noConfusion h
          · rename_i ts ht
            split at h
            · exact Except.noConfusion h
            · rename_i plats logs2 hpt
              split at h
              · exact Except.noConfusion h
              · rename_i hne
                obtain ⟨hm, hl⟩ := Prod.mk.inj (Except.ok.inj h)
                subst hl
                exact ⟨release, p, a, ts, plats, rfl, by rw [hc], hp, ha, ht, hpt, hne, hm.symm⟩

/-- `pick_one` is an error whenever the candidate count differs from one. -/
theorem pick_one_isErr_of_len_ne_one (items : List Asset) (d : String)
    (h : items.length ≠ 1) : isErrE (pick_one items d) = true := by
  cases items with
  | nil => rfl
  | cons x xs =>
    cases xs with
    | nil => simp at h
    | cons y ys => rfl

/-- The contains-flag is at most one. -/
theorem sigFlag_le_one (u : String) (x : Asset) : sigFlag u x ≤ 1 := by
  rw [sigFlag]
  split
  · exact Nat.zero_le 1
  · exact Nat.le_refl 1

/-- `containsStr` is boolean list membership. -/
theorem containsStr_eq_mem (l : List String) (s : String) :
    containsStr l s = true ↔ s ∈ l := by
  rw [containsStr, List.any_eq_true]
  constructor
  · rintro ⟨x, hx, hd⟩
    exact (of_decide_eq_true hd) ▸ hx
  · intro hs
    exact ⟨s, hs, by simp⟩

/-! ### The claims -/

/-- C1 counterexample: with no exact `.sig` asset and two fallback candidates
that both contain the updater asset name, the claim predicts the
lexicographically smallest candidate (`c1a`) is returned; the code instead
fails as ambiguous, naming both candidates. -/
theorem C1_counterexample :
    find_signature_asset [c1a, c1b] "1.0.0" ["windows"] "x86_64" uW =
      Except.error ("Multiple release assets matched signature for app_1.0.0_windows_x86_64.exe: app_1.0.0_windows_x86_64.exe.alpha.sig, app_1.0.0_windows_x86_64.exe.beta.sig") ∧
    find_signature_asset [c1a, c1b] "1.0.0" ["windows"] "x86_64" uW ≠ Except.ok c1a := by
  constructor
  · decide
  · decide

/-- C1 (amended): when the exact-name lookup finds nothing and the fallback
pattern yields two or more candidates, `_find_signature_asset` returns the
unique candidate whose name contains the full updater asset name if exactly
one such candidate exists, and otherwise fails as ambiguous: the lexicographic
component of the ranking key orders the candidates but never breaks a tie,
because every candidate tying with the best one on the contains-criterion is
passed to `_pick_one`. -/
theorem C1_sig_fallback_amended (assets : List Asset) (version : String)
    (aliases : List String) (arch u : String) (a : Asset)
    (hexact : exactSigMatches assets u = [])
    (hlen : 2 ≤ (sigCandidates assets version aliases arch).length) :
    ((sigCandidates assets version aliases arch).filter (fun x => isSubstr u x.name) = [a] →
      find_signature_asset assets version aliases arch u = Except.ok a) ∧
    (((sigCandidates assets version aliases arch).filter
        (fun x => isSubstr u x.name)).length ≠ 1 →
      isErrE (find_signature_asset assets version aliases arch u) = true) := by
  have hne : ¬ (exactSigMatches assets u ≠ []) := fun hcon => hcon hexact
  have hnle : ¬ ((sigCandidates assets version aliases arch).length ≤ 1) := by omega
  rw [find_signature_asset, if_neg hne, if_neg hnle]
  have hperm0 := sortByStable_perm (sigLt u) (sigCandidates assets version aliases arch)
  cases hsort : sortByStable (sigLt u) (sigCandidates assets version aliases arch) with
  | nil =>
    exfalso
    rw [hsort] at hperm0
    have hlen0 := hperm0.length_eq
    simp at hlen0
    omega
  | cons best rest =>
    rw [hsort] at hperm0
    simp only [hsort]
    have hmin := sortByStable_head_min u (sigCandidates assets version aliases arch) best rest hsort
    constructor
    · intro hcw
      have hamem : a ∈ (sigCandidates assets version aliases arch).filter
          (fun x => isSubstr u x.name) := by
        rw [hcw]
        exact List.mem_singleton.mpr rfl
      obtain ⟨hacand, hasub⟩ := List.mem_filter.mp hamem
      have hflag_a : sigFlag u a = 0 := (sigFlag_eq_zero_iff u a).mpr hasub
      have hflag_best : sigFlag u best = 0 := by
        have := hmin a hacand
        omega
      have hsubbest : isSubstr u best.name = true := (sigFlag_eq_zero_iff u best).mp hflag_best
      have hpredeq : (fun x : Asset => isSubstr u x.name == isSubstr u best.name) =
          (fun x : Asset => isSubstr u x.name) := by
        funext x
        rw [hsubbest]
        cases isSubstr u x.name <;> rfl
      rw [hpredeq]
      have hfperm := hperm0.filter (fun x : Asset => isSubstr u x.name)
      rw [hcw] at hfperm
      rw [List.perm_singleton.mp hfperm]
      rfl
    · intro hlen1
      by_cases hsubbest : isSubstr u best.name = true
      · have hpredeq : (fun x : Asset => isSubstr u x.name == isSubstr u best.name) =
            (fun x : Asset => isSubstr u x.name) := by
          funext x
          rw [hsubbest]
          cases isSubstr u x.name <;> rfl
        rw [hpredeq]
        have hfperm := hperm0.filter (fun x : Asset => isSubstr u x.name)
        exact pick_one_isErr_of_len_ne_one _ _ (by rw [hfperm.length_eq]; exact hlen1)
      · have hbfalse : isSubstr u best.name = false := by
          cases h2 : isSubstr u best.name with
          | false => rfl
          | true => exact absurd h2 hsubbest
        have hflag_best : sigFlag u best = 1 := by
          rw [sigFlag, if_neg hsubbest]
        have hallfalse : ∀ x ∈ best :: rest, isSubstr u x.name = false := by
          intro x hx
          have hxc : x ∈ sigCandidates assets version aliases arch := hperm0.subset hx
          have hge : 1 ≤ sigFlag u x := by
            have := hmin x hxc
            omega
          cases hcase : isSubstr u x.name with
          | false => rfl
          | true =>
            exfalso
            have h0 := (sigFlag_eq_zero_iff u x).mpr hcase
            omega
        have hfeq : (best :: rest).filter
            (fun x => isSubstr u x.name == isSubstr u best.name) = best :: rest := by
          apply List.filter_eq_self.mpr
          intro x hx
          rw [hallfalse x hx, hbfalse]
          rfl
        rw [hfeq]
        apply pick_one_isErr_of_len_ne_one
        have hleq := hperm0.length_eq
        omega

/-- C1 witness: one of the two fallback candidates contains the updater asset
name, so it is returned. -/
theorem C1_witness :
    exactSigMatches [c1a, c1c] uW = [] ∧
    2 ≤ (sigCandidates [c1a, c1c] "1.0.0" ["windows"] "x86_64").length ∧
    find_signature_asset [c1a, c1c] "1.0.0" ["windows"] "x86_64" uW = Except.ok c1a :=
  ⟨by decide, by decide,
    (C1_sig_fallback_amended [c1a, c1c] "1.0.0" ["windows"] "x86_64" uW c1a
      (by decide) (by decide)).1 (by decide)⟩

/-- C2 counterexample: two windows `.exe` assets match the same
platform/arch/extension combination, yet the run succeeds (darwin resolves and
the ambiguous windows target is merely skipped), so the ambiguity is not fatal
to the run. -/
theorem C2_counterexample :
    2 ≤ (updaterCandidates assetsC2 ("1.0.0") ["windows"] "x86_64" ".exe").length ∧
    isOkE (runMain args0 (Except.ok releaseC2) sigFetch0) = true := by
  constructor
  · decide
  · decide

/-- C2 (amended): two or more assets matching the updater pattern for one
platform/arch/extension combination make that combination fail with an
ambiguous-match error that names every conflicting asset (sorted,
comma-joined); in the per-target loop of `main()` this error is caught and the
next combination is tried, so it is fatal to the combination, not to the
run. -/
theorem C2_ambiguous_combination_amended (assets : List Asset) (version : String)
    (aliases : List String) (arch ext : String)
    (h : 2 ≤ (updaterCandidates assets version aliases arch ext).length) :
    find_updater_asset assets version aliases arch ext =
      Except.error (multipleMsg (updaterDesc version aliases arch ext)
        (updaterCandidates assets version aliases arch ext)) ∧
    ∀ x ∈ updaterCandidates assets version aliases arch ext,
      x.name ∈ sortByStable strLtB
        ((updaterCandidates assets version aliases arch ext).map (fun y => y.name)) := by
  constructor
  · rw [find_updater_asset]
    cases hc : updaterCandidates assets version aliases arch ext with
    | nil =>
      rw [hc] at h
      simp at h
    | cons x xs =>
      cases xs with
      | nil =>
        rw [hc] at h
        simp at h
      | cons y ys => rfl
  · intro x hx
    exact ((sortByStable_perm strLtB _).mem_iff).mpr
      (List.mem_map_of_mem (fun y => y.name) hx)

/-- C2 witness: the ambiguous windows combination of `assetsC2` produces the
ambiguous-match error with both names. -/
theorem C2_witness :
    2 ≤ (updaterCandidates assetsC2 ("1.0.0") ["windows"] "x86_64" ".exe").length ∧
    find_updater_asset assetsC2 ("1.0.0") ["windows"] "x86_64" ".exe" =
      Except.error (multipleMsg (updaterDesc ("1.0.0") ["windows"] "x86_64" ".exe")
        (updaterCandidates assetsC2 ("1.0.0") ["windows"] "x86_64" ".exe")) :=
  ⟨by decide,
    (C2_ambiguous_combination_amended assetsC2 ("1.0.0") ["windows"] "x86_64" ".exe"
      (by decide)).1⟩

/-- C3 counterexample: a release in which the windows target fails to resolve
still produces a successful run — in the program's (only) operating mode an
unresolved target is never fatal, so no strict mode exists. -/
theorem C3_counterexample :
    isErrE (resolveTarget assets3 ("1.0.0") targetWindowsX64) = true ∧
    isOkE (runMain args0 (Except.ok release3) sigFetch0) = true := by
  constructor
  · decide
  · decide

/-- C3 (amended): the program supports only a best-effort mode: in every
configuration, a target whose updater-asset search fails is logged and
skipped, and processing continues with the remaining targets. -/
theorem C3_skip_unresolved_amended (assets : List Asset) (v : String)
    (sf : String → Except String String) (t : Target) (ts : List Target)
    (acc : List (String × PlatEntry)) (logs : List String) (e : Option String)
    (h : resolveTarget assets v t = Except.error e) :
    processTargets assets v sf (t :: ts) acc logs =
      processTargets assets v sf ts acc (logs ++ [skipMsg t e]) := by
  rw [processTargets, h]

/-- C3 witness: a target with no alias combinations fails to resolve and is
skipped with its log line. -/
theorem C3_witness :
    resolveTarget [] "1" tToy = Except.error none ∧
    processTargets [] "1" sfNull [tToy] [] [] =
      processTargets [] "1" sfNull [] [] [skipMsg tToy none] :=
  ⟨rfl, C3_skip_unresolved_amended [] "1" sfNull tToy [] [] [] none rfl⟩

/-- C4 counterexample: darwin/aarch64 resolves fully (updater, exact
signature), but the windows target finds its updater asset and then hits an
ambiguous signature fallback, which is fatal — so the run fails even though
one target resolved successfully, refuting the "only if zero targets resolve"
direction. -/
theorem C4_counterexample :
    isOkE (resolveTarget assetsC4 ("1.0.0") targetDarwinArm) = true ∧
    find_signature_asset assetsC4 ("1.0.0") ["macos", "darwin"] "aarch64"
      "app_1.0.0_darwin_aarch64.app.tar.gz" = Except.ok s1 ∧
    runMain args0 (Except.ok releaseC4) sigFetch0 =
      Except.error ("Multiple release assets matched signature for app_1.0.0_windows_x86_64.exe: a_1.0.0_windows_x86_64.aa.sig, b_1.0.0_windows_x86_64.bb.sig") := by
  refine ⟨by decide, by decide, by decide⟩

/-- C4 (amended): in best-effort operation a target with no matching updater
asset is logged to stderr and omitted from the manifest, and — provided every
target that finds an updater asset also resolves its signature and download
(the per-target loop returns successfully) — the run fails, with the
no-platform error, if and only if zero targets resolve; a signature or
download failure is fatal even when other targets resolved. -/
theorem C4_best_effort_amended (args : Args) (release : Release)
    (sf : String → Except String String) (p : String) (a : List Asset)
    (ts : List Target) (plats : List (String × PlatEntry)) (lgs : List String)
    (h1 : checkTag args.channel args.tag = Except.ok ())
    (h2 : resolvePubDate release = Except.ok p)
    (h3 : getAssets release = Except.ok a)
    (h4 : filterTargets args.platforms = Except.ok ts)
    (h5 : processTargets a (deriveVersion args) sf ts [] [] = Except.ok (plats, lgs)) :
    (plats = [] ↔ ∀ t ∈ ts, isErrE (resolveTarget a (deriveVersion args) t) = true) ∧
    (plats = [] → runMain args (Except.ok release) sf =
      Except.error ("No platform assets found — cannot generate manifest")) ∧
    (plats ≠ [] → runMain args (Except.ok release) sf =
      Except.ok ({ version := deriveVersion args, pub_date := p, platforms := plats,
                   notes := deriveNotes args release (deriveVersion args) }, lgs)) ∧
    (∀ t ∈ ts, ∀ e, resolveTarget a (deriveVersion args) t = Except.error e →
      skipMsg t e ∈ lgs ∧ targetKey t ∉ plats.map Prod.fst) := by
  obtain ⟨extra, lextra, he1, he2, he3, he4, he5⟩ :=
    processTargets_ok a (deriveVersion args) sf ts [] [] plats lgs h5
  simp only [List.nil_append] at he1 he2
  subst he1
  subst he2
  obtain ⟨-, -, hnodup⟩ := filterTargets_ok args.platforms ts h4
  have hrun : runMain args (Except.ok release) sf =
      (if plats = [] then
        Except.error ("No platform assets found — cannot generate manifest")
      else
        Except.ok ({ version := deriveVersion args, pub_date := p, platforms := plats,
                     notes := deriveNotes args release (deriveVersion args) }, lgs)) := by
    simp only [runMain.eq_def, h1, h2, h3, h4, h5]
  refine ⟨he3, ?_, ?_, ?_⟩
  · intro h0
    rw [hrun, if_pos h0]
  · intro h0
    rw [hrun, if_neg h0]
  · intro t ht e he
    refine ⟨he4 t ht e he, ?_⟩
    intro hmem
    obtain ⟨t2, ht2, hkey, hok⟩ := he5 (targetKey t) hmem
    have hteq : t = t2 := List.inj_on_of_nodup_map hnodup ht ht2 hkey
    rw [← hteq, he] at hok
    simp [isOkE] at hok

/-- C4 witness: in the complete release all three targets resolve, the loop
returns them all, and the run succeeds with the assembled manifest. -/
theorem C4_witness :
    runMain args0 (Except.ok release0) sigFetch0 =
      Except.ok ({ version := deriveVersion args0, pub_date := "2024-01-01T00:00:00Z",
                   platforms := plats0,
                   notes := deriveNotes args0 release0 (deriveVersion args0) }, []) :=
  (C4_best_effort_amended args0 release0 sigFetch0 ("2024-01-01T00:00:00Z") assets0 targets
      plats0 [] (by decide) (by decide) (by decide) (by decide) (by decide)).2.2.1
    (by decide)

/-- C5 counterexample: a release payload with no `assets` key passes the
assets check (`release.get("assets") or []` replaces it by the empty list);
the run later fails with the no-platform error, not the payload-invalid
error. -/
theorem C5_counterexample :
    getAssets relNoAssets = Except.ok [] ∧
    runMain args0 (Except.ok relNoAssets) sigFetch0 =
      Except.error ("No platform assets found — cannot generate manifest") := by
  refine ⟨rfl, by decide⟩

/-- C5 (amended): the assets check fails — with "Release assets payload
invalid" — exactly when the `assets` field is present and holds a truthy
non-list value; a missing or falsy `assets` field is replaced by the empty
list and the release fetch stage succeeds. -/
theorem C5_assets_invalid_amended (r : Release) :
    isErrE (getAssets r) = true ↔ r.assets = some (AssetsField.other true) := by
  rw [getAssets]
  cases h : r.assets with
  | none => simp [isErrE]
  | some af =>
    cases af with
    | list items => simp [isErrE]
    | other b =>
      cases b with
      | false => simp [isErrE]
      | true => simp [isErrE]

/-- C6 counterexample: a tag carrying both a `-prerelease` and a
`+buildmetadata` suffix is rejected by the nightly channel's validation,
because the single suffix body class `[0-9A-Za-z.-]` cannot contain `+`. -/
theorem C6_counterexample :
    isErrE (checkTag Channel.nightly ("v1.2.3-rc.1+build")) = true := by decide

/-- C6 (amended): on the nightly channel, tag validation accepts exactly the
literal tag `nightly` and the tags `vMAJOR.MINOR.PATCH` optionally followed by
a single suffix that starts with `-` or `+` and continues with one or more
characters from `[0-9A-Za-z.-]`; a tag with both a `-prerelease` and a
`+buildmetadata` suffix is rejected. -/
theorem C6_nightly_tags_amended (tag : String) :
    checkTag Channel.nightly tag = Except.ok () ↔ specNightlyAmended tag :=
  checkTag_nightly_iff tag

/-- C7: a tag that does not conform to the selected channel's format — an
exact `vMAJOR.MINOR.PATCH` match for the stable channel, and for the nightly
channel the sentinel `nightly` or a version with optional
`-prerelease`/`+buildmetadata` suffixes — makes the run fail with the
tag-validation error for every fetch oracle and signature oracle, i.e. before
and independently of any network interaction. -/
theorem C7_invalid_tag_fails_before_network (args : Args)
    (hs : args.channel = Channel.stable → ¬ specStableTag args.tag)
    (hn : args.channel = Channel.nightly → ¬ specNightlyConforms args.tag) :
    ∀ (fr : Except String Release) (sf : String → Except String String),
      runMain args fr sf = Except.error (tagErrorMsg args.channel args.tag) := by
  have hcheck : checkTag args.channel args.tag =
      Except.error (tagErrorMsg args.channel args.tag) := by
    cases hch : args.channel with
    | stable =>
      have hvs : ¬ validStableTag args.tag = true :=
        fun hv => (hs hch) ((validStableTag_iff _).mp hv)
      show (if validStableTag args.tag then Except.ok ()
        else Except.error (tagErrorMsg Channel.stable args.tag)) =
          Except.error (tagErrorMsg Channel.stable args.tag)
      rw [if_neg hvs]
    | nightly =>
      have h1 : ¬ args.tag = "nightly" := fun he => (hn hch) (Or.inl he)
      have h2 : ¬ validNightlyTag args.tag = true := by
        intro hv
        apply hn hch
        obtain ⟨a, b, c, s, heq, ha, hb, hc2, hsuf⟩ := (validNightlyTag_iff _).mp hv
        refine Or.inr ⟨a, b, c, s, heq, ha, hb, hc2, ?_⟩
        rcases hsuf with rfl | ⟨x, r, rfl, hx, hr, hall⟩
        · exact Or.inl rfl
        · rcases hx with rfl | rfl
          · exact Or.inr (Or.inl ⟨r, hr, hall, rfl⟩)
          · exact Or.inr (Or.inr (Or.inl ⟨r, hr, hall, rfl⟩))
      show (if args.tag = "nightly" then Except.ok ()
        else if validNightlyTag args.tag then Except.ok ()
        else Except.error (tagErrorMsg Channel.nightly args.tag)) =
          Except.error (tagErrorMsg Channel.nightly args.tag)
      rw [if_neg h1, if_neg h2]
  intro fr sf
  rw [runMain.eq_def, hcheck]

/-- C7 witness: the malformed stable tag `1.2.3` (no leading `v`) fails with
the tag error regardless of the oracles. -/
theorem C7_witness :
    runMain args7 (Except.ok release0) sfNull =
      Except.error ("Expected stable tag vX.Y.Z, got: 1.2.3") :=
  C7_invalid_tag_fails_before_network args7
    (fun _ hsp => absurd ((validStableTag_iff ("1.2.3")).mpr hsp) (by decide))
    (fun hch => Channel.noConfusion hch)
    (Except.ok release0) sfNull

/-- C8: for a stable-channel run on a tag `v<ver>` with no explicit
`--version` override, a successful run's manifest carries version `<ver>`
(the tag with the leading `v` stripped). -/
theorem C8_stable_version_strips_v (args : Args) (fr : Except String Release)
    (sf : String → Except String String) (ver : String) (m : Manifest)
    (lgs : List String)
    (_hchan : args.channel = Channel.stable) (hv : args.version = "")
    (ht : args.tag = "v" ++ ver)
    (h : runMain args fr sf = Except.ok (m, lgs)) :
    m.version = ver := by
  obtain ⟨release, p, a, ts, plats, -, -, -, -, -, -, -, hm⟩ :=
    runMain_ok_inv args fr sf m lgs h
  rw [hm]
  show deriveVersion args = ver
  rw [deriveVersion, if_pos hv, ht, removeprefixV_v]

/-- C8 witness: the successful `v1.0.0` run produces manifest version
`1.0.0`. -/
theorem C8_witness :
    runMain args0 (Except.ok release0) sigFetch0 = Except.ok (m0, []) ∧
    m0.version = "1.0.0" :=
  ⟨by decide,
    C8_stable_version_strips_v args0 (Except.ok release0) sigFetch0 ("1.0.0") m0 []
      rfl rfl (by decide) (by decide)⟩

/-- C9: every platform key of a successful run's manifest is the key of one of
the three statically configured targets (darwin-aarch64, darwin-x86_64,
windows-x86_64), lies in the parsed `--platforms` filter whenever one was
given, and the platforms mapping is non-empty. -/
theorem C9_platform_keys_invariant (args : Args) (fr : Except String Release)
    (sf : String → Except String String) (m : Manifest) (lgs : List String)
    (h : runMain args fr sf = Except.ok (m, lgs)) :
    m.platforms ≠ [] ∧
    m.platforms.all (fun pr =>
      containsStr (targets.map targetKey) pr.1 &&
      (decide (args.platforms = "") || containsStr (parseFilter args.platforms) pr.1)) = true := by
  obtain ⟨release, p, a, ts, plats, -, -, -, -, h4, h5, hne, hm⟩ :=
    runMain_ok_inv args fr sf m lgs h
  obtain ⟨extra, lextra, he1, -, -, -, he5⟩ :=
    processTargets_ok a (deriveVersion args) sf ts [] [] plats lgs h5
  simp only [List.nil_append] at he1
  obtain ⟨hsubt, hfil, -⟩ := filterTargets_ok args.platforms ts h4
  subst hm
  refine ⟨hne, ?_⟩
  rw [List.all_eq_true]
  intro pr hpr
  have hk : pr.1 ∈ plats.map Prod.fst := List.mem_map_of_mem Prod.fst hpr
  rw [he1] at hk
  obtain ⟨t, ht, hkey, -⟩ := he5 pr.1 hk
  rw [Bool.and_eq_true]
  constructor
  · rw [hkey]
    exact (containsStr_eq_mem _ _).mpr (List.mem_map_of_mem targetKey (hsubt t ht))
  · rw [Bool.or_eq_true]
    by_cases hp : args.platforms = ""
    · exact Or.inl (decide_eq_true hp)
    · refine Or.inr ?_
      rw [hkey]
      exact hfil hp t ht

/-- C9 witness: the successful `v1.0.0` run's manifest has the three standard
keys and a non-empty mapping. -/
theorem C9_witness :
    m0.platforms ≠ [] ∧
    m0.platforms.all (fun pr =>
      containsStr (targets.map targetKey) pr.1 &&
      (decide (args0.platforms = "") || containsStr (parseFilter args0.platforms) pr.1)) = true :=
  C9_platform_keys_invariant args0 (Except.ok release0) sigFetch0 m0 [] (by decide)

/-- C10: when `--notes` is empty or whitespace-only, a successful run's
manifest notes equal the default text synthesized from the derived version,
the channel label, and the release's `html_url`. -/
theorem C10_blank_notes_default (args : Args) (release : Release)
    (sf : String → Except String String) (m : Manifest) (lgs : List String)
    (hn : args.notes.data.all isPySpace = true)
    (h : runMain args (Except.ok release) sf = Except.ok (m, lgs)) :
    m.notes = defaultNotes (deriveVersion args) (channelLabel args.channel)
      (release.html_url.getD ("")) := by
  obtain ⟨release2, p, a, ts, plats, hfr, -, -, -, -, -, -, hm⟩ :=
    runMain_ok_inv args (Except.ok release) sf m lgs h
  obtain rfl := Except.ok.inj hfr
  rw [hm]
  show deriveNotes args release (deriveVersion args) = _
  rw [deriveNotes, if_pos (pyStrip_all_space args.notes hn)]

/-- C10 witness: whitespace-only `--notes` yields the default notes text. -/
theorem C10_witness :
    argsN.notes.data.all isPySpace = true ∧
    m0.notes = defaultNotes (deriveVersion argsN) (channelLabel argsN.channel)
      (release0.html_url.getD ("")) :=
  ⟨by decide,
    C10_blank_notes_default argsN release0 sigFetch0 m0 [] (by decide) (by decide)⟩
